import Mathlib

/-!
Verification development for the Calculus-Sketching repository (src/app.py).

The program is a single-file sympy pipeline: it parses a first derivative
(and optionally a second derivative) as symbolic expressions in `x`,
integrates up the derivative chain introducing integration constants
C1 (and C2), builds initial-condition equations, solves them with
`sp.solve(equations, [C1, C2], dict=True)`, substitutes the first solution
set (if any) into both reconstructed expressions, converts the results to
numeric callables with `sp.lambdify`, evaluates them on a 1000-point
`np.linspace` grid, and computes critical/inflection point annotations.

This file shallowly embeds that pipeline:
* `Expr` models sympy expressions over the bound variable `x` and the
  integration-constant symbols `C1`, `C2`.  The smart constructors
  `addE`, `mulE`, `powE`, `sinE`, `cosE`, `expE` model sympy's automatic
  evaluation (constant folding, `0 + e = e`, `1 * e = e`, `e ** 1 = e`,
  coefficient collection in nested products), which sympy applies whenever
  an `Add`/`Mul`/`Pow` node is built.
* `integrate` models `sp.integrate(e, x)` on the expression classes the
  pipeline feeds it (linear combinations of powers of `x`, `sin x`,
  `cos x`, `exp x`, and the constant symbols); outside this fragment it
  abstains (`none`), modelling an integration failure.
* `diff` models `sp.diff(e, x)`.
* `substX`/`substC` model `e.subs(x, a)` and `e.subs(solution_dict)`.
* `solveConstants` models `sp.solve(equations, [C1, C2], dict=True)` for
  the (at most two) linear-in-constants equations the condition solver
  builds; the exact Gaussian elimination mirrors linear solving with the
  unknown order [C1, C2].  The result is the list of solution dictionaries.
* `evalAt`/`lambdifyM` model `sp.lambdify(x, e, "numpy")`: the conversion
  itself performs no free-symbol check (it always yields a callable), and
  invoking the callable on a point fails (models the `NameError` raised at
  call time) when an unresolved constant symbol remains.  Transcendental
  atoms are kept out of the exact numeric fragment, so the evaluator
  abstains on them; numeric floats are modelled by exact rationals.
* `linspace` models `np.linspace(xmin, xmax, 1000)`.
* `parseFloat`/`parseFloatList` model Python's `float()` and the
  comma-split parse of the critical-point text (decimal/exponent grammar;
  `inf`/`nan` literals are outside the modelled fragment).
* `solveX`/`inflectionOf` model `sp.solve(fdoubleprime, x)` followed by the
  real-filter and float conversion, on the constant/linear/quadratic
  fragment; `none` models a solver failure (the `except` path).
* `pipeline` chains the stages exactly in the order of src/app.py lines
  62-140, halting only where the code halts.  Condition texts are taken as
  already-parsed pairs of rationals (their parsing is upstream of every
  claim checked here), and derivative texts as already-parsed expressions
  (`sp.sympify` is the external parser; a blank second derivative is
  `none`).
-/

namespace CalcSketch

/-- Symbolic expressions: rational constants, the bound variable `x`, the
integration-constant symbols `C1`/`C2`, arithmetic, natural powers, and the
transcendental atoms used by the app (`sin`, `cos`, `exp`). -/
inductive Expr : Type
  | num : ℚ → Expr
  | var : Expr
  | c1 : Expr
  | c2 : Expr
  | add : Expr → Expr → Expr
  | mul : Expr → Expr → Expr
  | pow : Expr → ℕ → Expr
  | sin : Expr → Expr
  | cos : Expr → Expr
  | exp : Expr → Expr
  deriving DecidableEq, Repr

namespace Expr

/-- Smart addition, modelling sympy's automatic evaluation of `Add`:
numeric constants fold, and a zero summand disappears. -/
def addE : Expr → Expr → Expr
  | .num p, .num q => .num (p + q)
  | .num p, b => if p = 0 then b else .add (.num p) b
  | a, .num q => if q = 0 then a else .add a (.num q)
  | a, b => .add a b

/-- Smart multiplication, modelling sympy's automatic evaluation of `Mul`:
numeric constants fold, `0 * e = 0`, `1 * e = e`, and a numeric coefficient
combines with the numeric coefficient of a nested product. -/
def mulE : Expr → Expr → Expr
  | .num p, .num q => .num (p * q)
  | .num p, .mul (.num q) c => mulE (.num (p * q)) c
  | .num p, b => if p = 0 then .num 0 else if p = 1 then b else .mul (.num p) b
  | a, .num q => if q = 0 then .num 0 else if q = 1 then a else .mul a (.num q)
  | a, b => .mul a b

/-- Smart power, modelling sympy's automatic evaluation of `Pow` with a
natural exponent: numeric bases fold, `e ** 0 = 1`, `e ** 1 = e`. -/
def powE : Expr → ℕ → Expr
  | .num q, n => .num (q ^ n)
  | e, n => if n = 0 then .num 1 else if n = 1 then e else .pow e n

/-- Smart sine: sympy evaluates `sin 0 = 0`. -/
def sinE : Expr → Expr
  | .num q => if q = 0 then .num 0 else .sin (.num q)
  | e => .sin e

/-- Smart cosine: sympy evaluates `cos 0 = 1`. -/
def cosE : Expr → Expr
  | .num q => if q = 0 then .num 1 else .cos (.num q)
  | e => .cos e

/-- Smart exponential: sympy evaluates `exp 0 = 1`. -/
def expE : Expr → Expr
  | .num q => if q = 0 then .num 1 else .exp (.num q)
  | e => .exp e

/-- Symbolic derivative with respect to `x`, modelling `sp.diff(e, x)`
(the constant symbols C1/C2 differentiate to zero). -/
def diff : Expr → Expr
  | .num _ => .num 0
  | .var => .num 1
  | .c1 => .num 0
  | .c2 => .num 0
  | .add a b => addE (diff a) (diff b)
  | .mul a b => addE (mulE (diff a) b) (mulE a (diff b))
  | .pow e n => mulE (mulE (.num (n : ℚ)) (powE e (n - 1))) (diff e)
  | .sin e => mulE (cosE e) (diff e)
  | .cos e => mulE (mulE (.num (-1)) (sinE e)) (diff e)
  | .exp e => mulE (expE e) (diff e)

/-- Symbolic indefinite integral with respect to `x`, modelling
`sp.integrate(e, x)` on the fragment the pipeline feeds it: sums,
numeric-coefficient products, powers of `x`, `sin x`, `cos x`, `exp x`,
and the constant symbols (`integrate(C1, x) = C1*x`).  `none` models an
expression whose antiderivative the model does not produce. -/
def integrate : Expr → Option Expr
  | .num q => some (mulE (.num q) .var)
  | .var => some (mulE (.num (1 / 2)) (.pow .var 2))
  | .c1 => some (.mul .c1 .var)
  | .c2 => some (.mul .c2 .var)
  | .add a b => do
      let ga ← integrate a
      let gb ← integrate b
      some (addE ga gb)
  | .mul (.num q) e => do
      let g ← integrate e
      some (mulE (.num q) g)
  | .pow .var n => some (mulE (.num (1 / (n + 1))) (.pow .var (n + 1)))
  | .sin .var => some (mulE (.num (-1)) (.cos .var))
  | .cos .var => some (.sin .var)
  | .exp .var => some (.exp .var)
  | _ => none

/-- Substitution of a rational point for the bound variable, modelling
`e.subs(x, a)`; sympy rebuilds the nodes, so the smart constructors apply. -/
def substX : Expr → ℚ → Expr
  | .num q, _ => .num q
  | .var, a => .num a
  | .c1, _ => .c1
  | .c2, _ => .c2
  | .add u v, a => addE (substX u a) (substX v a)
  | .mul u v, a => mulE (substX u a) (substX v a)
  | .pow e n, a => powE (substX e a) n
  | .sin e, a => sinE (substX e a)
  | .cos e, a => cosE (substX e a)
  | .exp e, a => expE (substX e a)

/-- Does the expression mention an integration-constant symbol (a free
symbol other than `x`)? -/
def containsConst : Expr → Bool
  | .c1 => true
  | .c2 => true
  | .num _ => false
  | .var => false
  | .add a b => containsConst a || containsConst b
  | .mul a b => containsConst a || containsConst b
  | .pow e _ => containsConst e
  | .sin e => containsConst e
  | .cos e => containsConst e
  | .exp e => containsConst e

/-- Does the expression avoid the symbol `C2`?  Parsed derivative inputs
range over the spec's input grammar (arithmetic over `x` only), so they
satisfy this. -/
def noC2 : Expr → Bool
  | .c2 => false
  | .num _ => true
  | .var => true
  | .c1 => true
  | .add a b => noC2 a && noC2 b
  | .mul a b => noC2 a && noC2 b
  | .pow e _ => noC2 e
  | .sin e => noC2 e
  | .cos e => noC2 e
  | .exp e => noC2 e

/-- Is the expression a numeric literal?  Classifier used to phrase the
clause laws of the smart constructors. -/
def isNum : Expr → Bool
  | .num _ => true
  | _ => false

/-- Is the expression a product whose left factor is a numeric literal? -/
def isNumMul : Expr → Bool
  | .mul (.num _) _ => true
  | _ => false

/-- Pointwise numeric evaluation of an expression, modelling a call of the
function produced by `sp.lambdify(x, e, "numpy")`: an unresolved constant
symbol makes the call fail (sympy raises `NameError` for the undefined
name), modelled by `none`.  The exact-rational fragment abstains on
transcendental atoms (their values are generally irrational). -/
def evalAt : Expr → ℚ → Option ℚ
  | .num q, _ => some q
  | .var, v => some v
  | .c1, _ => none
  | .c2, _ => none
  | .add a b, v => do
      let x ← evalAt a v
      let y ← evalAt b v
      some (x + y)
  | .mul a b, v => do
      let x ← evalAt a v
      let y ← evalAt b v
      some (x * y)
  | .pow e n, v => do
      let x ← evalAt e v
      some (x ^ n)
  | .sin _, _ => none
  | .cos _, _ => none
  | .exp _, _ => none

end Expr

open Expr

/-- Conversion of an expression to a numeric callable, modelling
`sp.lambdify(x, e, "numpy")`: lambdify generates the function textually and
performs no free-symbol validation, so the conversion itself always
succeeds; errors surface only when the returned callable is invoked. -/
def lambdifyM (e : Expr) : Option (ℚ → Option ℚ) :=
  some (fun v => Expr.evalAt e v)

/-- The reconstruction step, src/app.py lines 79-86: with a second
derivative, `fprime_expr = integrate(fdoubleprime) + C1` and
`f_expr = integrate(fprime_expr) + C2`; without one, `fprime_expr` is the
parsed first derivative unchanged and `f_expr = integrate(fprime) + C1`.
Returns `(f_expr, fprime_expr)`; `none` models an integration failure
propagating out of the reconstruction. -/
def reconstruct (fprime : Expr) : Option Expr → Option (Expr × Expr)
  | some fdp => do
      let g1 ← integrate fdp
      let fpe := addE g1 .c1
      let g2 ← integrate fpe
      some (addE g2 .c2, fpe)
  | none => do
      let g ← integrate fprime
      some (addE g .c1, fprime)

/-- A basis atom of the input grammar: a power of `x`, or `sin x`,
`cos x`, `exp x`. -/
inductive Basis : Type
  | xpow : ℕ → Basis
  | sinx : Basis
  | cosx : Basis
  | expx : Basis
  deriving DecidableEq, Repr

/-- The expression denoted by a basis atom. -/
def Basis.toExpr : Basis → Expr
  | .xpow n => powE .var n
  | .sinx => .sin .var
  | .cosx => .cos .var
  | .expx => .exp .var

/-- One term of a parsed derivative input: a rational coefficient times a
basis atom. -/
structure Term : Type where
  coeff : ℚ
  base : Basis
  deriving DecidableEq, Repr

/-- The expression denoted by a term; sympy's automatic evaluation makes a
parsed input carry its coefficients through `Mul` nodes, modelled by the
smart constructor. -/
def Term.toExpr (t : Term) : Expr :=
  mulE (.num t.coeff) t.base.toExpr

/-- The expression denoted by a parsed derivative input, a sum of terms:
the grammar of valid f'(x)/f''(x) texts covered by the model (linear
combinations of powers of `x`, `sin x`, `cos x`, `exp x`). -/
def inputExpr : List Term → Expr
  | [] => .num 0
  | t :: ts => addE t.toExpr (inputExpr ts)

/-- A solution dictionary returned by the solver: an optional value for
`C1` and an optional value for `C2` (a missing key means the symbol was
not solved for).  Values are expressions (a parametric solution of an
underdetermined system can mention `C2`). -/
structure PSol : Type where
  v1 : Option Expr
  v2 : Option Expr
  deriving DecidableEq, Repr

/-- Simultaneous substitution of a solution dictionary into an expression,
modelling `e.subs(constants[0])`. -/
def substC : Expr → PSol → Expr
  | .num q, _ => .num q
  | .var, _ => .var
  | .c1, σ => σ.v1.getD .c1
  | .c2, σ => σ.v2.getD .c2
  | .add u v, σ => addE (substC u σ) (substC v σ)
  | .mul u v, σ => mulE (substC u σ) (substC v σ)
  | .pow e n, σ => powE (substC e σ) n
  | .sin e, σ => sinE (substC e σ)
  | .cos e, σ => cosE (substC e σ)
  | .exp e, σ => expE (substC e σ)

/-- A linear form `k + a*C1 + b*C2` in the integration constants. -/
structure Lin : Type where
  k : ℚ
  a : ℚ
  b : ℚ
  deriving DecidableEq, Repr

/-- Extraction of the linear form of a constant-in-`x` expression in the
symbols C1, C2, the shape every initial-condition equation of the pipeline
has after the point is substituted (the constants are only ever introduced
additively, so the equations are linear in them).  `none` means the
equation is outside the fragment the solver model covers. -/
def linOf : Expr → Option Lin
  | .num q => some ⟨q, 0, 0⟩
  | .c1 => some ⟨0, 1, 0⟩
  | .c2 => some ⟨0, 0, 1⟩
  | .add u v => do
      let lu ← linOf u
      let lv ← linOf v
      some ⟨lu.k + lv.k, lu.a + lv.a, lu.b + lv.b⟩
  | .mul (.num q) e => (fun l => ⟨q * l.k, q * l.a, q * l.b⟩) <$> linOf e
  | .mul e (.num q) => (fun l => ⟨q * l.k, q * l.a, q * l.b⟩) <$> linOf e
  | _ => none

/-- Solving a single linear equation for [C1, C2]: the first symbol with a
nonzero coefficient is solved for (parametrically in `C2` when both
appear); an unsatisfiable or vacuous equation yields no solution set. -/
def solve1 (e : Lin) : List PSol :=
  if e.a = 0 then
    if e.b = 0 then []
    else [⟨none, some (.num (-e.k / e.b))⟩]
  else
    [⟨some (addE (.num (-e.k / e.a)) (mulE (.num (-e.b / e.a)) .c2)), none⟩]

/-- Solving a pair of linear equations for [C1, C2] by Gaussian
elimination with the unknown order [C1, C2]: pick a pivot row for C1,
eliminate, solve the reduced row for C2, back-substitute; an inconsistent
system yields no solution set, a rank-deficient consistent system yields a
parametric one. -/
def solve2 (e1 e2 : Lin) : List PSol :=
  if e1.a = 0 ∧ e2.a = 0 then
    if e1.b = 0 then
      if e1.k = 0 then solve1 e2 else []
    else
      let v2 := -e1.k / e1.b
      if e2.k + e2.b * v2 = 0 then [⟨none, some (.num v2)⟩] else []
  else
    let p := if e1.a = 0 then e2 else e1
    let o := if e1.a = 0 then e1 else e2
    let kr := o.k - o.a / p.a * p.k
    let br := o.b - o.a / p.a * p.b
    if br = 0 then
      if kr = 0 then
        [⟨some (addE (.num (-p.k / p.a)) (mulE (.num (-p.b / p.a)) .c2)), none⟩]
      else []
    else
      let v2 := -kr / br
      [⟨some (.num ((-p.k - p.b * v2) / p.a)), some (.num v2)⟩]

/-- Linearization of a list of equations; `none` if any equation falls
outside the linear fragment. -/
def linsOf : List Expr → Option (List Lin)
  | [] => some []
  | e :: es => do
      let l ← linsOf es
      let l0 ← linOf e
      some (l0 :: l)

/-- The solver call of src/app.py line 108,
`sp.solve(equations, [C1, C2], dict=True)`: the list of solution
dictionaries.  The pipeline builds one or two equations; outside the
modelled fragment the solver abstains (finds nothing). -/
def solveConstants (eqs : List Expr) : List PSol :=
  match linsOf eqs with
  | none => []
  | some [] => []
  | some [e] => solve1 e
  | some [e1, e2] => solve2 e1 e2
  | some _ => []

/-- The initial-condition equations of src/app.py lines 91-106: always
`f_expr.subs(x, a) - b`, and additionally `fprime_expr.subs(x, c) - d`
when the optional f'(c)=d condition was supplied. -/
def builtEqs (f0 fp0 : Expr) (icfx : ℚ × ℚ) (icfpx : Option (ℚ × ℚ)) : List Expr :=
  addE (substX f0 icfx.1) (.num (-icfx.2)) ::
    (match icfpx with
     | none => []
     | some cd => [addE (substX fp0 cd.1) (.num (-cd.2))])

/-- Substitution of the first solution set, if any, into both
reconstructed expressions (src/app.py lines 109-111). -/
def finalized (f0 fp0 : Expr) (icfx : ℚ × ℚ) (icfpx : Option (ℚ × ℚ)) : Expr × Expr :=
  match solveConstants (builtEqs f0 fp0 icfx icfpx) with
  | [] => (f0, fp0)
  | σ :: _ => (substC f0 σ, substC fp0 σ)

/-- The sample grid, modelling `np.linspace(xmin, xmax, n)` with both
endpoints included. -/
def linspace (a b : ℚ) (n : ℕ) : List ℚ :=
  (List.range n).map (fun (i : ℕ) => a + (b - a) * (i : ℚ) / ((n : ℚ) - 1))

/-- Whitespace test for the modelled `str.strip()`. -/
def isSpaceChar (c : Char) : Bool :=
  c = ' ' || c = '\t' || c = '\n' || c = '\r'

/-- Is the text blank, i.e. does `s.strip()` leave nothing?  Used for the
emptiness checks on the optional inputs. -/
def isBlank (s : List Char) : Bool :=
  s.all isSpaceChar

/-- Decimal digit test. -/
def isDigitChar (c : Char) : Bool :=
  '0' ≤ c && c ≤ '9'

/-- Numeric value of a digit character. -/
def digitVal (c : Char) : ℕ :=
  c.toNat - '0'.toNat

/-- Value of a digit string. -/
def natOfDigits (s : List Char) : ℕ :=
  s.foldl (fun acc c => 10 * acc + digitVal c) 0

/-- Split a character list at the first character satisfying the
predicate, returning the part before and, if a split happened, the part
after. -/
def splitFirst (p : Char → Bool) : List Char → List Char × Option (List Char)
  | [] => ([], none)
  | c :: r =>
      if p c then ([], some r)
      else
        let uv := splitFirst p r
        (c :: uv.1, uv.2)

/-- Parse a nonempty digit string. -/
def parseDigitsNat (d : List Char) : Option ℕ :=
  if d ≠ [] ∧ d.all isDigitChar then some (natOfDigits d) else none

/-- Parse an optionally signed exponent. -/
def parseExponent (r : List Char) : Option ℤ :=
  match r with
  | '+' :: d => (parseDigitsNat d).map Int.ofNat
  | '-' :: d => (parseDigitsNat d).map (fun n => -(n : ℤ))
  | d => (parseDigitsNat d).map Int.ofNat

/-- Parse an unsigned decimal mantissa: digits with at most one point,
at least one digit overall. -/
def parseMantissa (m : List Char) : Option ℚ :=
  let ip := splitFirst (· = '.') m
  match ip.2 with
  | none => (parseDigitsNat ip.1).map (fun n => (n : ℚ))
  | some fpart =>
      if ip.1.all isDigitChar ∧ fpart.all isDigitChar ∧ (ip.1 ≠ [] ∨ fpart ≠ []) then
        some ((natOfDigits ip.1 : ℚ) + (natOfDigits fpart : ℚ) / 10 ^ fpart.length)
      else none

/-- Parse an unsigned float with optional exponent part. -/
def parseUnsignedFloat (r : List Char) : Option ℚ := do
  let me := splitFirst (fun c => c = 'e' || c = 'E') r
  let mv ← parseMantissa me.1
  match me.2 with
  | none => some mv
  | some ep => do
      let ev ← parseExponent ep
      some (mv * (10 : ℚ) ^ ev)

/-- Model of Python's `float(str)` on the decimal fragment: strip
whitespace, optional sign, decimal mantissa, optional exponent
(`inf`/`nan` literals and underscores are outside the modelled fragment). -/
def parseFloat (s : List Char) : Option ℚ :=
  let t := ((s.dropWhile isSpaceChar).reverse.dropWhile isSpaceChar).reverse
  match t with
  | '+' :: r => parseUnsignedFloat r
  | '-' :: r => (parseUnsignedFloat r).map Neg.neg
  | r => parseUnsignedFloat r

/-- Model of `str.split(",")`: split on every comma, keeping empty
pieces. -/
def splitComma : List Char → List (List Char)
  | [] => [[]]
  | c :: r =>
      if c = ',' then [] :: splitComma r
      else
        match splitComma r with
        | [] => [[c]]
        | h :: t => (c :: h) :: t

/-- Model of `[float(v) for v in s.split(",")]`: all pieces must parse. -/
def parseFloatList (s : List Char) : Option (List ℚ) :=
  (splitComma s).mapM parseFloat

/-- The only non-fatal warning the pipeline can emit. -/
inductive Warning : Type
  | criticalParse
  deriving DecidableEq, Repr

/-- The only modelled fatal halt reachable from parsed inputs:
an integration failure propagating out of the reconstruction. -/
inductive Halt : Type
  | integrationFailure
  deriving DecidableEq, Repr

/-- The critical-point stage, src/app.py lines 127-132: blank text means
no critical points and no warning; non-blank text is parsed as a
comma-separated float list, and a parse failure yields a warning and an
empty list (the assignment inside the `try` never happened). -/
def criticalResult (s : List Char) : List ℚ × List Warning :=
  if isBlank s then ([], [])
  else
    match parseFloatList s with
    | some vs => (vs, [])
    | none => ([], [.criticalParse])

/-- A root reported by the symbolic solver: a real (rational) value or a
non-real one. -/
inductive XRoot : Type
  | isReal : ℚ → XRoot
  | nonreal : XRoot
  deriving DecidableEq, Repr

/-- The float conversion applied to a real root (`float(v)`); real
constants always convert. -/
def XRoot.realValue : XRoot → Option ℚ
  | .isReal q => some q
  | .nonreal => none

/-- Extraction of the quadratic form `k + a*x + b*x^2` of an expression in
`x`; `none` outside the fragment. -/
def quadX : Expr → Option (ℚ × ℚ × ℚ)
  | .num q => some (q, 0, 0)
  | .var => some (0, 1, 0)
  | .pow .var 2 => some (0, 0, 1)
  | .add u v => do
      let ku ← quadX u
      let kv ← quadX v
      some (ku.1 + kv.1, ku.2.1 + kv.2.1, ku.2.2 + kv.2.2)
  | .mul (.num q) e => (fun t => (q * t.1, q * t.2.1, q * t.2.2)) <$> quadX e
  | .mul e (.num q) => (fun t => (q * t.1, q * t.2.1, q * t.2.2)) <$> quadX e
  | _ => none

/-- Rational square root, when it exists exactly. -/
def ratSqrt (q : ℚ) : Option ℚ :=
  if q < 0 then none
  else
    let sn := Nat.sqrt q.num.toNat
    let sd := Nat.sqrt q.den
    if (sn * sn : ℤ) = q.num ∧ sd * sd = q.den then some ((sn : ℚ) / (sd : ℚ))
    else none

/-- Model of `sp.solve(g, x)` on the constant/linear/quadratic fragment:
the list of roots, real or not.  A quadratic with negative discriminant
has two non-real roots; `none` models a solver failure (expressions the
solver raises on, and roots outside the exact-rational model). -/
def solveX (g : Expr) : Option (List XRoot) :=
  match quadX g with
  | none => none
  | some (k, a, b) =>
    if b = 0 then
      if a = 0 then some []
      else some [.isReal (-k / a)]
    else
      let disc := a ^ 2 - 4 * b * k
      if disc < 0 then some [.nonreal, .nonreal]
      else if disc = 0 then some [.isReal (-a / (2 * b))]
      else
        match ratSqrt disc with
        | none => none
        | some s => some [.isReal ((-a - s) / (2 * b)), .isReal ((-a + s) / (2 * b))]

/-- The inflection-point stage, src/app.py lines 134-140: nothing without
a second derivative; otherwise solve `fdoubleprime = 0` for `x`, keep the
real roots, convert to float, and swallow any solver failure into an empty
list. -/
def inflectionOf : Option Expr → List ℚ
  | none => []
  | some g =>
    match solveX g with
    | none => []
    | some rs => rs.filterMap XRoot.realValue

/-- Everything the pipeline hands to the external rendering collaborator. -/
structure Output : Type where
  f_expr : Expr
  fprime_expr : Expr
  xVals : List ℚ
  fVals : List (Option ℚ)
  fpVals : List (Option ℚ)
  fppVals : Option (List (Option ℚ))
  criticalPoints : List ℚ
  inflectionPoints : List ℚ
  warnings : List Warning
  deriving DecidableEq, Repr

/-- Assembly of the pipeline output after a successful reconstruction. -/
def mkOutput (f0 fp0 : Expr) (fdp : Option Expr) (icfx : ℚ × ℚ)
    (icfpx : Option (ℚ × ℚ)) (cs : List Char) (x0 x1 : ℚ) : Output :=
  let fin := finalized f0 fp0 icfx icfpx
  let xs := linspace x0 x1 1000
  let crit := criticalResult cs
  { f_expr := fin.1
    fprime_expr := fin.2
    xVals := xs
    fVals := xs.map (Expr.evalAt fin.1)
    fpVals := xs.map (Expr.evalAt fin.2)
    fppVals := fdp.map (fun g => xs.map (Expr.evalAt g))
    criticalPoints := crit.1
    inflectionPoints := inflectionOf fdp
    warnings := crit.2 }

/-- The whole pipeline of src/app.py lines 62-140 on parsed inputs:
reconstruction (halting on integration failure), condition solving with
first-solution substitution, numeric conversion and grid evaluation,
critical-point parsing (non-fatal) and inflection-point solving
(non-fatal). -/
def pipeline (fprime : Expr) (fdp : Option Expr) (icfx : ℚ × ℚ)
    (icfpx : Option (ℚ × ℚ)) (cs : List Char) (x0 x1 : ℚ) :
    Except Halt Output :=
  match reconstruct fprime fdp with
  | none => .error .integrationFailure
  | some fe => .ok (mkOutput fe.1 fe.2 fdp icfx icfpx cs x0 x1)

/-- Conclusion checked for the refinement of the Reconstructor against the
spec formulas (claim C1): the produced pair has exactly the stated shape
in terms of `integrate` and the fresh constants. -/
def C1Concl (fp : Expr) (fdp : Option Expr) (fe fpe : Expr) : Prop :=
  match fdp with
  | none => fpe = fp ∧ ∃ g, integrate fp = some g ∧ fe = addE g .c1
  | some dd => ∃ g1 g2, integrate dd = some g1 ∧ fpe = addE g1 .c1 ∧
      integrate (addE g1 .c1) = some g2 ∧ fe = addE g2 .c2

/-- Conclusion checked for the condition-solver policy (claim C2): the
solver's solution dictionaries only mention the constants the
Reconstructor introduced (no `C2` assignment, and no `C2` inside an
assigned value, when the second derivative is absent), the first solution
set is the one substituted, and an empty solution list leaves both
expressions unresolved with the pipeline still succeeding. -/
def C2Concl (fp : Expr) (fdp : Option Expr) (icfx : ℚ × ℚ)
    (icfpx : Option (ℚ × ℚ)) (cs : List Char) (x0 x1 : ℚ) : Prop :=
  ∃ f0 fp0, reconstruct fp fdp = some (f0, fp0) ∧
    (fdp = none → ∀ σ ∈ solveConstants (builtEqs f0 fp0 icfx icfpx),
        σ.v2 = none ∧ ∀ v, σ.v1 = some v → noC2 v = true) ∧
    ∃ out, pipeline fp fdp icfx icfpx cs x0 x1 = .ok out ∧
      ((solveConstants (builtEqs f0 fp0 icfx icfpx) = [] ∧
          out.f_expr = f0 ∧ out.fprime_expr = fp0) ∨
        (∃ σ rest, solveConstants (builtEqs f0 fp0 icfx icfpx) = σ :: rest ∧
          out.f_expr = substC f0 σ ∧ out.fprime_expr = substC fp0 σ))

/-- Conclusion checked for substitution atomicity (claim C4): either the
head solution dictionary is substituted into both reconstructed
expressions, or neither expression is modified. -/
def C4Concl (fp : Expr) (fdp : Option Expr) (icfx : ℚ × ℚ)
    (icfpx : Option (ℚ × ℚ)) (cs : List Char) (x0 x1 : ℚ) : Prop :=
  ∃ f0 fp0, reconstruct fp fdp = some (f0, fp0) ∧
    ((∃ σ rest, solveConstants (builtEqs f0 fp0 icfx icfpx) = σ :: rest ∧
        (pipeline fp fdp icfx icfpx cs x0 x1).map (fun o => (o.f_expr, o.fprime_expr))
          = .ok (substC f0 σ, substC fp0 σ)) ∨
      (solveConstants (builtEqs f0 fp0 icfx icfpx) = [] ∧
        (pipeline fp fdp icfx icfpx cs x0 x1).map (fun o => (o.f_expr, o.fprime_expr))
          = .ok (f0, fp0)))

/-- Conclusion checked for the sample grid (claim C7): exactly 1000
entries, first entry `a`, last entry `b`, consecutive entries an equal
positive step apart. -/
def C7Concl (a b : ℚ) : Prop :=
  (linspace a b 1000).length = 1000 ∧
  (linspace a b 1000).get? 0 = some a ∧
  (linspace a b 1000).get? 999 = some b ∧
  (∀ i, i + 1 < 1000 → ∃ u v, (linspace a b 1000).get? i = some u ∧
      (linspace a b 1000).get? (i + 1) = some v ∧ v - u = (b - a) / 999 ∧ u < v)

/-- Conclusion checked for the critical-point error path (claim C8): a
non-blank unparsable critical-point text changes nothing in the pipeline
result except for the emitted warning (same halts, same expressions, same
arrays, empty critical-point list). -/
def C8Concl (fp : Expr) (fdp : Option Expr) (icfx : ℚ × ℚ)
    (icfpx : Option (ℚ × ℚ)) (cs : List Char) (x0 x1 : ℚ) : Prop :=
  pipeline fp fdp icfx icfpx cs x0 x1
    = (pipeline fp fdp icfx icfpx [] x0 x1).map
        (fun o => { o with warnings := [Warning.criticalParse] }) ∧
  ∀ out, pipeline fp fdp icfx icfpx cs x0 x1 = .ok out →
    out.criticalPoints = [] ∧ out.warnings = [Warning.criticalParse]

/-- Conclusion checked for the inflection-point stage (claim C9): the
pipeline still succeeds, the reported inflection points are exactly the
real-filtered float conversions of the solver's roots, and a solver
failure yields an empty list. -/
def C9Concl (fp : Expr) (fdp : Expr) (icfx : ℚ × ℚ)
    (icfpx : Option (ℚ × ℚ)) (cs : List Char) (x0 x1 : ℚ) : Prop :=
  ∃ out, pipeline fp (some fdp) icfx icfpx cs x0 x1 = .ok out ∧
    out.inflectionPoints =
      (match solveX fdp with
       | none => []
       | some rs => rs.filterMap XRoot.realValue) ∧
    (solveX fdp = none → out.inflectionPoints = [])

/-! ### Basic laws of the smart constructors -/

theorem addE_num_zero_left (b : Expr) : addE (.num 0) b = b := by
  cases b <;> simp [addE]

theorem addE_num_zero_right (a : Expr) : addE a (.num 0) = a := by
  cases a <;> simp [addE]

theorem mulE_num_zero_left (b : Expr) : mulE (.num 0) b = .num 0 := by
  induction b with
  | mul u v ihu ihv =>
      cases u <;> simp_all [mulE]
  | _ => simp [mulE]

theorem mulE_num_one_right (a : Expr) : mulE a (.num 1) = a := by
  cases a <;> simp [mulE]

theorem mulE_num_mulE (p q : ℚ) (z : Expr) :
    mulE (.num p) (mulE (.num q) z) = mulE (.num (p * q)) z := by
  induction z generalizing p q with
  | num r => simp [mulE, mul_assoc]
  | mul u v ihu ihv =>
      cases u with
      | num r =>
          calc mulE (.num p) (mulE (.num q) (.mul (.num r) v))
              = mulE (.num p) (mulE (.num (q * r)) v) := rfl
            _ = mulE (.num (p * (q * r))) v := ihv p (q * r)
            _ = mulE (.num (p * q * r)) v := by rw [mul_assoc]
            _ = mulE (.num (p * q)) (.mul (.num r) v) := rfl
      | _ =>
          simp only [mulE]
          rcases eq_or_ne q 0 with hq0 | hq0
          · subst hq0
            simp [mulE_num_zero_left, mulE, mul_comm]
          · rcases eq_or_ne q 1 with hq1 | hq1
            · subst hq1
              simp [mulE]
            · simp [hq0, hq1, mulE]
  | _ =>
      simp only [mulE]
      rcases eq_or_ne q 0 with hq0 | hq0
      · subst hq0
        simp [mulE_num_zero_left, mulE]
      · rcases eq_or_ne q 1 with hq1 | hq1
        · subst hq1
          simp [mulE]
        · simp [hq0, hq1, mulE]

theorem addE_num_nonnum (p : ℚ) (b : Expr) (hb : isNum b = false) :
    addE (.num p) b = if p = 0 then b else .add (.num p) b := by
  cases b <;> simp_all [isNum, addE]

theorem addE_nonnum_num (a : Expr) (q : ℚ) (ha : isNum a = false) :
    addE a (.num q) = if q = 0 then a else .add a (.num q) := by
  cases a <;> simp_all [isNum, addE]

theorem addE_nonnum (a b : Expr) (ha : isNum a = false) (hb : isNum b = false) :
    addE a b = .add a b := by
  cases a <;> cases b <;> simp_all [isNum, addE]

theorem mulE_num_nonnum (p : ℚ) (b : Expr) (hb : isNum b = false)
    (hb2 : isNumMul b = false) :
    mulE (.num p) b = if p = 0 then .num 0 else if p = 1 then b else .mul (.num p) b := by
  cases b with
  | mul u v => cases u <;> simp_all [isNum, isNumMul, mulE]
  | _ => simp_all [isNum, isNumMul, mulE]

theorem mulE_nonnum_num (a : Expr) (q : ℚ) (ha : isNum a = false) :
    mulE a (.num q) = if q = 0 then .num 0 else if q = 1 then a else .mul a (.num q) := by
  cases a <;> simp_all [isNum, mulE]

theorem diff_addE (a b : Expr) : diff (addE a b) = addE (diff a) (diff b) := by
  by_cases ha : isNum a = true
  · obtain ⟨p, rfl⟩ : ∃ p, a = .num p := by
      cases a <;> simp_all [isNum]
    by_cases hb : isNum b = true
    · obtain ⟨q, rfl⟩ : ∃ q, b = .num q := by
        cases b <;> simp_all [isNum]
      show diff (.num (p + q)) = addE (.num 0) (.num 0)
      simp [diff, addE]
    · rw [addE_num_nonnum p b (by simpa using hb)]
      split_ifs with hp
      · subst hp
        show diff b = addE (.num 0) (diff b)
        rw [addE_num_zero_left]
      · show addE (diff (.num p)) (diff b) = addE (.num 0) (diff b)
        rfl
  · by_cases hb : isNum b = true
    · obtain ⟨q, rfl⟩ : ∃ q, b = .num q := by
        cases b <;> simp_all [isNum]
      rw [addE_nonnum_num a q (by simpa using ha)]
      split_ifs with hq
      · subst hq
        show diff a = addE (diff a) (.num 0)
        rw [addE_num_zero_right]
      · rfl
    · rw [addE_nonnum a b (by simpa using ha) (by simpa using hb)]
      rfl

theorem diff_mulE_var (c : ℚ) : diff (mulE (.num c) .var) = .num c := by
  rw [mulE_num_nonnum c .var rfl rfl]
  split_ifs with hc hc1
  · subst hc
    rfl
  · subst hc1
    rfl
  · show addE (mulE (.num 0) .var) (mulE (.num c) (.num 1)) = .num c
    rw [mulE_num_zero_left, addE_num_zero_left]
    show Expr.num (c * 1) = .num c
    rw [mul_one]

theorem diff_pow_var (m : ℕ) (hm : 2 ≤ m) :
    diff (.pow .var m) = mulE (.num (m : ℚ)) (powE .var (m - 1)) := by
  show mulE (mulE (.num (m : ℚ)) (powE .var (m - 1))) (.num 1) = _
  rw [mulE_num_one_right]

theorem diff_mulE_pow (c : ℚ) (m : ℕ) (hm : 2 ≤ m) :
    diff (mulE (.num c) (.pow .var m)) = mulE (.num (c * m)) (powE .var (m - 1)) := by
  rw [mulE_num_nonnum c (.pow .var m) rfl rfl]
  split_ifs with hc hc1
  · subst hc
    show Expr.num 0 = mulE (.num ((0 : ℚ) * m)) (powE .var (m - 1))
    rw [zero_mul, mulE_num_zero_left]
  · subst hc1
    rw [diff_pow_var m hm, one_mul]
  · show addE (mulE (.num 0) (.pow .var m)) (mulE (.num c) (diff (.pow .var m))) = _
    rw [diff_pow_var m hm, mulE_num_zero_left, addE_num_zero_left, mulE_num_mulE]

theorem diff_cos_var : diff (.cos .var) = mulE (.num (-1)) (.sin .var) := by
  show mulE (mulE (.num (-1)) (sinE .var)) (.num 1) = _
  rw [mulE_num_one_right]
  rfl

theorem diff_mulE_cos (c : ℚ) :
    diff (mulE (.num c) (.cos .var)) = mulE (.num (-c)) (.sin .var) := by
  rw [mulE_num_nonnum c (.cos .var) rfl rfl]
  split_ifs with hc hc1
  · subst hc
    show Expr.num 0 = mulE (.num (-(0 : ℚ))) (.sin .var)
    rw [neg_zero, mulE_num_zero_left]
  · subst hc1
    rw [diff_cos_var]
  · show addE (mulE (.num 0) (.cos .var)) (mulE (.num c) (diff (.cos .var))) = _
    rw [diff_cos_var, mulE_num_zero_left, addE_num_zero_left, mulE_num_mulE]
    rw [show c * (-1) = -c by ring]

theorem diff_sin_var : diff (.sin .var) = .cos .var := by
  show mulE (cosE .var) (.num 1) = _
  rw [mulE_num_one_right]
  rfl

theorem diff_mulE_sin (c : ℚ) :
    diff (mulE (.num c) (.sin .var)) = mulE (.num c) (.cos .var) := by
  rw [mulE_num_nonnum c (.sin .var) rfl rfl, mulE_num_nonnum c (.cos .var) rfl rfl]
  split_ifs with hc hc1
  · subst hc
    rfl
  · subst hc1
    rw [diff_sin_var]
  · show addE (mulE (.num 0) (.sin .var)) (mulE (.num c) (diff (.sin .var))) = _
    rw [diff_sin_var, mulE_num_zero_left, addE_num_zero_left]
    rw [mulE_num_nonnum c (.cos .var) rfl rfl]
    simp [hc, hc1]

theorem diff_exp_var : diff (.exp .var) = .exp .var := by
  show mulE (expE .var) (.num 1) = _
  rw [mulE_num_one_right]
  rfl

theorem diff_mulE_exp (c : ℚ) :
    diff (mulE (.num c) (.exp .var)) = mulE (.num c) (.exp .var) := by
  rw [mulE_num_nonnum c (.exp .var) rfl rfl]
  split_ifs with hc hc1
  · subst hc
    rfl
  · subst hc1
    rw [diff_exp_var]
  · show addE (mulE (.num 0) (.exp .var)) (mulE (.num c) (diff (.exp .var))) = _
    rw [diff_exp_var, mulE_num_zero_left, addE_num_zero_left]
    rw [mulE_num_nonnum c (.exp .var) rfl rfl]
    simp [hc, hc1]


/-! ### Integration laws on the input grammar -/

theorem integrate_mulE_powvar (q : ℚ) (m : ℕ) :
    integrate (mulE (.num q) (powE .var (m + 1)))
      = some (mulE (.num (q / (m + 2))) (.pow .var (m + 2))) := by
  rcases Nat.eq_zero_or_pos m with hm | hm
  · subst hm
    rw [show powE .var (0 + 1) = .var from rfl]
    rw [mulE_num_nonnum q .var rfl rfl]
    split_ifs with hq hq1
    · subst hq
      rw [zero_div, mulE_num_zero_left]
      show some (mulE (.num 0) .var) = some (.num 0)
      rw [mulE_num_zero_left]
    · subst hq1
      show some (mulE (.num (1 / 2)) (.pow .var 2)) = _
      norm_num
    · show some (mulE (.num q) (mulE (.num (1 / 2)) (.pow .var 2))) = _
      rw [mulE_num_mulE]
      rw [show q * (1 / 2) = q / (((0 : ℕ) : ℚ) + 2) by push_cast; ring]
  · have h1 : ¬(m + 1 = 0) := by omega
    have h2 : ¬(m + 1 = 1) := by omega
    rw [show powE .var (m + 1) = .pow .var (m + 1) by simp [powE, h1, h2]]
    rw [mulE_num_nonnum q (.pow .var (m + 1)) rfl rfl]
    split_ifs with hq hq1
    · subst hq
      rw [zero_div, mulE_num_zero_left]
      show some (mulE (.num 0) .var) = some (.num 0)
      rw [mulE_num_zero_left]
    · subst hq1
      show some (mulE (.num (1 / (((m + 1 : ℕ) : ℚ) + 1))) (.pow .var (m + 1 + 1))) = _
      rw [show (1 : ℚ) / (((m + 1 : ℕ) : ℚ) + 1) = 1 / (((m : ℕ) : ℚ) + 2) by push_cast; ring]
    · show some (mulE (.num q)
          (mulE (.num (1 / (((m + 1 : ℕ) : ℚ) + 1))) (.pow .var (m + 1 + 1)))) = _
      rw [mulE_num_mulE]
      rw [show q * (1 / (((m + 1 : ℕ) : ℚ) + 1)) = q / (((m : ℕ) : ℚ) + 2) by
        push_cast; ring]

theorem integrate_mulE_sin (q : ℚ) :
    integrate (mulE (.num q) (.sin .var)) = some (mulE (.num (-q)) (.cos .var)) := by
  rw [mulE_num_nonnum q (.sin .var) rfl rfl]
  split_ifs with hq hq1
  · subst hq
    rw [neg_zero, mulE_num_zero_left]
    show some (mulE (.num 0) .var) = some (.num 0)
    rw [mulE_num_zero_left]
  · subst hq1
    rfl
  · show some (mulE (.num q) (mulE (.num (-1)) (.cos .var))) = _
    rw [mulE_num_mulE]
    rw [show q * (-1) = -q by ring]

theorem integrate_mulE_cos (q : ℚ) :
    integrate (mulE (.num q) (.cos .var)) = some (mulE (.num q) (.sin .var)) := by
  rw [mulE_num_nonnum q (.cos .var) rfl rfl, mulE_num_nonnum q (.sin .var) rfl rfl]
  split_ifs with hq hq1
  · show some (mulE (.num 0) .var) = some (.num 0)
    rw [mulE_num_zero_left]
  · rfl
  · show some (mulE (.num q) (.sin .var)) = _
    rw [mulE_num_nonnum q (.sin .var) rfl rfl]
    simp [hq, hq1]

theorem integrate_mulE_exp (q : ℚ) :
    integrate (mulE (.num q) (.exp .var)) = some (mulE (.num q) (.exp .var)) := by
  rw [mulE_num_nonnum q (.exp .var) rfl rfl]
  split_ifs with hq hq1
  · show some (mulE (.num 0) .var) = some (.num 0)
    rw [mulE_num_zero_left]
  · rfl
  · show some (mulE (.num q) (.exp .var)) = _
    rw [mulE_num_nonnum q (.exp .var) rfl rfl]
    simp [hq, hq1]

/-- Integrating one term of the input grammar succeeds, and differentiating
the antiderivative gives the term back exactly. -/
theorem integrate_diff_term (t : Term) :
    ∃ g, integrate t.toExpr = some g ∧ diff g = t.toExpr := by
  obtain ⟨q, b⟩ := t
  cases b with
  | xpow n =>
      cases n with
      | zero =>
          refine ⟨mulE (.num q) .var, ?_, ?_⟩
          · show integrate (mulE (.num q) (.num 1)) = _
            rw [show mulE (.num q) (.num 1) = .num (q * 1) from rfl, mul_one]
            rfl
          · rw [diff_mulE_var]
            show Expr.num q = mulE (.num q) (.num 1)
            rw [show mulE (.num q) (.num 1) = .num (q * 1) from rfl, mul_one]
      | succ m =>
          refine ⟨mulE (.num (q / (m + 2))) (.pow .var (m + 2)), ?_, ?_⟩
          · exact integrate_mulE_powvar q m
          · rw [diff_mulE_pow _ _ (by omega)]
            have hcoeff : q / ((m : ℚ) + 2) * ((m + 2 : ℕ) : ℚ) = q := by
              have hne : ((m : ℚ) + 2) ≠ 0 := by positivity
              push_cast
              field_simp
            show mulE (.num (q / ((m : ℚ) + 2) * ((m + 2 : ℕ) : ℚ))) (powE .var (m + 2 - 1))
              = Term.toExpr ⟨q, .xpow (m + 1)⟩
            rw [hcoeff]
            rfl
  | sinx =>
      refine ⟨mulE (.num (-q)) (.cos .var), integrate_mulE_sin q, ?_⟩
      rw [diff_mulE_cos, neg_neg]
      rfl
  | cosx =>
      refine ⟨mulE (.num q) (.sin .var), integrate_mulE_cos q, ?_⟩
      rw [diff_mulE_sin]
      rfl
  | expx =>
      refine ⟨mulE (.num q) (.exp .var), integrate_mulE_exp q, ?_⟩
      rw [diff_mulE_exp]
      rfl

/-- Integrating a smart sum succeeds when integrating the summands does,
and differentiation undoes it when it undoes the parts. -/
theorem integrate_diff_addE (a b ga gb : Expr)
    (ha : integrate a = some ga) (hb : integrate b = some gb)
    (da : diff ga = a) (db : diff gb = b) :
    ∃ g, integrate (addE a b) = some g ∧ diff g = addE a b := by
  by_cases hna : isNum a = true
  · obtain ⟨p, rfl⟩ : ∃ p, a = .num p := by
      cases a <;> simp_all [isNum]
    by_cases hnb : isNum b = true
    · obtain ⟨r, rfl⟩ : ∃ r, b = .num r := by
        cases b <;> simp_all [isNum]
      refine ⟨mulE (.num (p + r)) .var, rfl, ?_⟩
      rw [diff_mulE_var]
      rfl
    · rw [addE_num_nonnum p b (by simpa using hnb)]
      split_ifs with hp
      · subst hp
        exact ⟨gb, hb, db⟩
      · refine ⟨addE (mulE (.num p) .var) gb, ?_, ?_⟩
        · simp only [integrate]
          rw [hb]
          rfl
        · rw [diff_addE, diff_mulE_var, db]
          rw [addE_num_nonnum p b (by simpa using hnb)]
          simp [hp]
  · by_cases hnb : isNum b = true
    · obtain ⟨r, rfl⟩ : ∃ r, b = .num r := by
        cases b <;> simp_all [isNum]
      rw [addE_nonnum_num a r (by simpa using hna)]
      split_ifs with hr
      · subst hr
        exact ⟨ga, ha, da⟩
      · refine ⟨addE ga (mulE (.num r) .var), ?_, ?_⟩
        · simp only [integrate]
          rw [ha]
          rfl
        · rw [diff_addE, diff_mulE_var, da]
          rw [addE_nonnum_num a r (by simpa using hna)]
          simp [hr]
    · rw [addE_nonnum a b (by simpa using hna) (by simpa using hnb)]
      refine ⟨addE ga gb, ?_, ?_⟩
      · simp only [integrate]
        rw [ha, hb]
        rfl
      · rw [diff_addE, da, db]
        rw [addE_nonnum a b (by simpa using hna) (by simpa using hnb)]

/-- Integrating a whole parsed input succeeds, and differentiating the
antiderivative recovers the input exactly. -/
theorem integrate_diff_input (d : List Term) :
    ∃ g, integrate (inputExpr d) = some g ∧ diff g = inputExpr d := by
  induction d with
  | nil =>
      refine ⟨.num 0, ?_, rfl⟩
      show some (mulE (.num 0) .var) = _
      rw [mulE_num_zero_left]
  | cons t ts ih =>
      obtain ⟨gt, hti, htd⟩ := integrate_diff_term t
      obtain ⟨gs, hsi, hsd⟩ := ih
      exact integrate_diff_addE _ _ _ _ hti hsi htd hsd

/-! ### Preservation of the constant-symbol discipline -/

theorem mulE_nonnum_left (a b : Expr) (ha : isNum a = false) (hb : isNum b = false) :
    mulE a b = .mul a b := by
  cases a <;> cases b <;> first
    | rfl
    | simp_all [isNum]

theorem noC2_addE (a b : Expr) (ha : noC2 a = true) (hb : noC2 b = true) :
    noC2 (addE a b) = true := by
  by_cases hna : isNum a = true
  · obtain ⟨p, rfl⟩ : ∃ p, a = .num p := by
      cases a <;> simp_all [isNum]
    by_cases hnb : isNum b = true
    · obtain ⟨r, rfl⟩ : ∃ r, b = .num r := by
        cases b <;> simp_all [isNum]
      rfl
    · rw [addE_num_nonnum p b (by simpa using hnb)]
      split_ifs with hp
      · exact hb
      · simp [noC2, hb]
  · by_cases hnb : isNum b = true
    · obtain ⟨r, rfl⟩ : ∃ r, b = .num r := by
        cases b <;> simp_all [isNum]
      rw [addE_nonnum_num a r (by simpa using hna)]
      split_ifs with hr
      · exact ha
      · simp [noC2, ha]
    · rw [addE_nonnum a b (by simpa using hna) (by simpa using hnb)]
      simp [noC2, ha, hb]

theorem noC2_mulE : ∀ b a, noC2 a = true → noC2 b = true → noC2 (mulE a b) = true := by
  intro b
  induction b with
  | mul u v ihu ihv =>
      intro a ha hb
      have hv : noC2 v = true := by
        have hb2 := hb
        simp only [noC2, Bool.and_eq_true] at hb2
        exact hb2.2
      by_cases hna : isNum a = true
      · obtain ⟨p, rfl⟩ : ∃ p, a = .num p := by
          cases a <;> simp_all [isNum]
        cases u with
        | num r =>
            show noC2 (mulE (.num (p * r)) v) = true
            exact ihv (.num (p * r)) rfl hv
        | _ =>
            rw [mulE_num_nonnum p]
            · split_ifs with hp hp1
              · rfl
              · exact hb
              · simpa [noC2] using hb
            · rfl
            · rfl
      · rw [mulE_nonnum_left a]
        · simpa [noC2, ha] using hb
        · simpa using hna
        · rfl
  | num q =>
      intro a ha _
      by_cases hna : isNum a = true
      · obtain ⟨p, rfl⟩ : ∃ p, a = .num p := by
          cases a <;> simp_all [isNum]
        rfl
      · rw [mulE_nonnum_num a q (by simpa using hna)]
        split_ifs <;> simp [noC2, ha]
  | _ =>
      intro a ha hb
      by_cases hna : isNum a = true
      · obtain ⟨p, rfl⟩ : ∃ p, a = .num p := by
          cases a <;> simp_all [isNum]
        rw [mulE_num_nonnum p]
        · split_ifs <;> simp_all [noC2]
        · rfl
        · rfl
      · rw [mulE_nonnum_left a]
        · simp_all [noC2]
        · simpa using hna
        · rfl

theorem noC2_powE (e : Expr) (n : ℕ) (he : noC2 e = true) : noC2 (powE e n) = true := by
  cases e <;> simp_all [powE, noC2] <;> split_ifs <;> simp_all [noC2]

theorem noC2_sinE (e : Expr) (he : noC2 e = true) : noC2 (sinE e) = true := by
  cases e <;> simp_all [sinE, noC2] <;> split_ifs <;> simp_all [noC2]

theorem noC2_cosE (e : Expr) (he : noC2 e = true) : noC2 (cosE e) = true := by
  cases e <;> simp_all [cosE, noC2] <;> split_ifs <;> simp_all [noC2]

theorem noC2_expE (e : Expr) (he : noC2 e = true) : noC2 (expE e) = true := by
  cases e <;> simp_all [expE, noC2] <;> split_ifs <;> simp_all [noC2]

theorem noC2_substX (e : Expr) (a : ℚ) (he : noC2 e = true) :
    noC2 (substX e a) = true := by
  induction e with
  | add u v ihu ihv =>
      simp only [noC2, Bool.and_eq_true] at he
      exact noC2_addE _ _ (ihu he.1) (ihv he.2)
  | mul u v ihu ihv =>
      simp only [noC2, Bool.and_eq_true] at he
      exact noC2_mulE _ _ (ihu he.1) (ihv he.2)
  | pow u n ihu => exact noC2_powE _ _ (ihu he)
  | sin u ihu => exact noC2_sinE _ (ihu he)
  | cos u ihu => exact noC2_cosE _ (ihu he)
  | exp u ihu => exact noC2_expE _ (ihu he)
  | _ => simp_all [substX, noC2]

theorem noC2_integrate : ∀ e g, integrate e = some g → noC2 e = true → noC2 g = true := by
  intro e
  induction e with
  | num q =>
      intro g hg _
      obtain rfl : mulE (.num q) .var = g := by simpa [integrate] using hg
      exact noC2_mulE _ _ rfl rfl
  | var =>
      intro g hg _
      obtain rfl : mulE (.num (1 / 2)) (.pow .var 2) = g := by simpa [integrate] using hg
      exact noC2_mulE _ _ rfl rfl
  | c1 =>
      intro g hg _
      obtain rfl : Expr.mul .c1 .var = g := by simpa [integrate] using hg
      rfl
  | c2 =>
      intro g hg hc
      simp [noC2] at hc
  | add u v ihu ihv =>
      intro g hg he
      simp only [noC2, Bool.and_eq_true] at he
      simp only [integrate, Option.bind_eq_bind] at hg
      cases hgu : integrate u with
      | none => rw [hgu] at hg; simp at hg
      | some gu =>
          rw [hgu] at hg
          cases hgv : integrate v with
          | none => rw [hgv] at hg; simp at hg
          | some gv =>
              rw [hgv] at hg
              simp only [Option.some_bind, Option.some.injEq] at hg
              subst hg
              exact noC2_addE _ _ (ihu gu hgu he.1) (ihv gv hgv he.2)
  | mul u v ihu ihv =>
      intro g hg he
      simp only [noC2, Bool.and_eq_true] at he
      cases u with
      | num q =>
          simp only [integrate, Option.bind_eq_bind] at hg
          cases hgv : integrate v with
          | none => rw [hgv] at hg; simp at hg
          | some gv =>
              rw [hgv] at hg
              simp only [Option.some_bind, Option.some.injEq] at hg
              subst hg
              exact noC2_mulE _ _ rfl (ihv gv hgv he.2)
      | _ => simp [integrate] at hg
  | pow u n ihu =>
      intro g hg _
      cases u with
      | var =>
          obtain rfl : mulE (.num (1 / (n + 1))) (.pow .var (n + 1)) = g := by
            simpa [integrate] using hg
          exact noC2_mulE _ _ rfl rfl
      | _ => simp [integrate] at hg
  | sin u ihu =>
      intro g hg _
      cases u with
      | var =>
          obtain rfl : mulE (.num (-1)) (.cos .var) = g := by simpa [integrate] using hg
          exact noC2_mulE _ _ rfl rfl
      | _ => simp [integrate] at hg
  | cos u ihu =>
      intro g hg _
      cases u with
      | var =>
          obtain rfl : Expr.sin .var = g := by simpa [integrate] using hg
          rfl
      | _ => simp [integrate] at hg
  | exp u ihu =>
      intro g hg _
      cases u with
      | var =>
          obtain rfl : Expr.exp .var = g := by simpa [integrate] using hg
          rfl
      | _ => simp [integrate] at hg

/-! ### The solver only resolves constants that occur in the equations -/

theorem linOf_b_scale (w : Expr) (r : ℚ) (l : Lin)
    (hl : (fun l => (⟨r * l.k, r * l.a, r * l.b⟩ : Lin)) <$> linOf w = some l)
    (ihw : ∀ l, linOf w = some l → noC2 w = true → l.b = 0)
    (hw : noC2 w = true) : l.b = 0 := by
  cases hu : linOf w with
  | none => rw [hu] at hl; simp at hl
  | some lu =>
      rw [hu] at hl
      simp only [Option.map_eq_map, Option.map_some, Option.some.injEq] at hl
      rw [← hl]
      show r * lu.b = 0
      rw [ihw lu hu hw, mul_zero]

theorem linOf_noC2 : ∀ e l, linOf e = some l → noC2 e = true → l.b = 0 := by
  intro e
  induction e with
  | num q =>
      intro l hl _
      obtain rfl : (⟨q, 0, 0⟩ : Lin) = l := by simpa [linOf] using hl
      rfl
  | c1 =>
      intro l hl _
      obtain rfl : (⟨0, 1, 0⟩ : Lin) = l := by simpa [linOf] using hl
      rfl
  | c2 =>
      intro l _ hc
      simp [noC2] at hc
  | add u v ihu ihv =>
      intro l hl he
      simp only [noC2, Bool.and_eq_true] at he
      simp only [linOf, Option.bind_eq_bind] at hl
      cases hu : linOf u with
      | none => rw [hu] at hl; simp at hl
      | some lu =>
          rw [hu] at hl
          cases hv : linOf v with
          | none => rw [hv] at hl; simp at hl
          | some lv =>
              rw [hv] at hl
              simp only [Option.some_bind, Option.some.injEq] at hl
              subst hl
              show lu.b + lv.b = 0
              rw [ihu lu hu he.1, ihv lv hv he.2, add_zero]
  | mul u v ihu ihv =>
      intro l hl he
      simp only [noC2, Bool.and_eq_true] at he
      cases u with
      | num q =>
          simp only [linOf] at hl
          exact linOf_b_scale v q l hl ihv he.2
      | _ =>
          cases v with
          | num r =>
              exact linOf_b_scale _ r l hl ihu he.1
          | _ =>
              exact absurd hl (by simp [linOf])
  | _ =>
      intro l hl _
      simp_all [linOf]

theorem linsOf_mem : ∀ (eqs : List Expr) (ls : List Lin), linsOf eqs = some ls →
    ∀ l ∈ ls, ∃ e ∈ eqs, linOf e = some l := by
  intro eqs
  induction eqs with
  | nil =>
      intro ls hls l hl
      obtain rfl : ([] : List Lin) = ls := by simpa [linsOf] using hls
      simp at hl
  | cons e es ih =>
      intro ls hls l hl
      simp only [linsOf, Option.bind_eq_bind] at hls
      cases hes : linsOf es with
      | none => rw [hes] at hls; simp at hls
      | some ls' =>
          rw [hes] at hls
          cases he : linOf e with
          | none => rw [he] at hls; simp at hls
          | some l0 =>
              rw [he] at hls
              simp only [Option.some_bind, Option.some.injEq] at hls
              subst hls
              rcases List.mem_cons.mp hl with rfl | hl'
              · exact ⟨e, List.mem_cons_self e es, he⟩
              · obtain ⟨e', he', hle'⟩ := ih ls' hes l hl'
                exact ⟨e', List.mem_cons_of_mem e he', hle'⟩

/-- When a single equation does not mention C2, the solver never assigns
C2 and the value it assigns to C1 does not mention C2. -/
theorem solve1_introduced (e : Lin) (hb : e.b = 0) :
    ∀ σ ∈ solve1 e, σ.v2 = none ∧ ∀ v, σ.v1 = some v → noC2 v = true := by
  intro σ hσ
  simp only [solve1] at hσ
  by_cases ha : e.a = 0
  · rw [if_pos ha, if_pos hb] at hσ
    simp at hσ
  · rw [if_neg ha] at hσ
    simp only [List.mem_singleton] at hσ
    subst hσ
    refine ⟨rfl, ?_⟩
    intro v hv
    rw [hb, neg_zero, zero_div, mulE_num_zero_left, addE_num_zero_right] at hv
    obtain rfl : Expr.num (-e.k / e.a) = v := by simpa using hv
    rfl

/-- When a pair of equations does not mention C2, the solver never assigns
C2 and the values it assigns do not mention C2. -/
theorem solve2_introduced (e1 e2 : Lin) (hb1 : e1.b = 0) (hb2 : e2.b = 0) :
    ∀ σ ∈ solve2 e1 e2, σ.v2 = none ∧ ∀ v, σ.v1 = some v → noC2 v = true := by
  intro σ hσ
  simp only [solve2] at hσ
  by_cases ha : e1.a = 0 ∧ e2.a = 0
  · rw [if_pos ha, if_pos hb1] at hσ
    by_cases hk : e1.k = 0
    · rw [if_pos hk] at hσ
      exact solve1_introduced e2 hb2 σ hσ
    · rw [if_neg hk] at hσ
      simp at hσ
  · rw [if_neg ha] at hσ
    set p := if e1.a = 0 then e2 else e1 with hp
    set o := if e1.a = 0 then e1 else e2 with ho
    have hpb : p.b = 0 := by
      rw [hp]
      split_ifs <;> assumption
    have hob : o.b = 0 := by
      rw [ho]
      split_ifs <;> assumption
    rw [hpb, hob] at hσ
    rw [if_pos (by ring : (0 : ℚ) - o.a / p.a * 0 = 0)] at hσ
    by_cases hk : o.k - o.a / p.a * p.k = 0
    · rw [if_pos hk] at hσ
      simp only [List.mem_singleton] at hσ
      subst hσ
      refine ⟨rfl, ?_⟩
      intro v hv
      rw [neg_zero, zero_div, mulE_num_zero_left, addE_num_zero_right] at hv
      obtain rfl : Expr.num (-p.k / p.a) = v := by simpa using hv
      rfl
    · rw [if_neg hk] at hσ
      simp at hσ

/-- When no equation mentions C2, no solution dictionary of the solver
assigns C2 (and no assigned value mentions C2). -/
theorem solveConstants_introduced (eqs : List Expr)
    (h : ∀ e ∈ eqs, noC2 e = true) :
    ∀ σ ∈ solveConstants eqs, σ.v2 = none ∧ ∀ v, σ.v1 = some v → noC2 v = true := by
  intro σ hσ
  simp only [solveConstants] at hσ
  cases hls : linsOf eqs with
  | none => rw [hls] at hσ; simp at hσ
  | some ls =>
      rw [hls] at hσ
      have hb : ∀ l ∈ ls, l.b = 0 := by
        intro l hl
        obtain ⟨e, he, hle⟩ := linsOf_mem eqs ls hls l hl
        exact linOf_noC2 e l hle (h e he)
      match ls, hσ with
      | [], hσ => simp at hσ
      | [e], hσ => exact solve1_introduced e (hb e (by simp)) σ hσ
      | [e1, e2], hσ =>
          exact solve2_introduced e1 e2 (hb e1 (by simp)) (hb e2 (by simp)) σ hσ
      | (_ :: _ :: _ :: _), hσ => simp at hσ

/-- Every initial-condition equation built from C2-free reconstructed
expressions is C2-free. -/
theorem builtEqs_noC2 (f0 fp0 : Expr) (icfx : ℚ × ℚ) (icfpx : Option (ℚ × ℚ))
    (hf : noC2 f0 = true) (hfp : noC2 fp0 = true) :
    ∀ e ∈ builtEqs f0 fp0 icfx icfpx, noC2 e = true := by
  intro e he
  simp only [builtEqs] at he
  rcases List.mem_cons.mp he with rfl | he'
  · exact noC2_addE _ _ (noC2_substX _ _ hf) rfl
  · cases icfpx with
    | none => simp at he'
    | some cd =>
        simp only [List.mem_singleton] at he'
        subst he'
        exact noC2_addE _ _ (noC2_substX _ _ hfp) rfl

/-! ### Strictness of the numeric evaluator -/

theorem evalAt_none_of_containsConst :
    ∀ e v, containsConst e = true → Expr.evalAt e v = none := by
  intro e
  induction e with
  | num q => intro v h; simp [containsConst] at h
  | var => intro v h; simp [containsConst] at h
  | c1 => intro _ _; rfl
  | c2 => intro _ _; rfl
  | add u w ihu ihw =>
      intro v h
      simp only [containsConst, Bool.or_eq_true] at h
      simp only [Expr.evalAt, Option.bind_eq_bind]
      rcases h with h | h
      · rw [ihu v h]
        rfl
      · cases hu : Expr.evalAt u v with
        | none => rfl
        | some x => rw [ihw v h]; rfl
  | mul u w ihu ihw =>
      intro v h
      simp only [containsConst, Bool.or_eq_true] at h
      simp only [Expr.evalAt, Option.bind_eq_bind]
      rcases h with h | h
      · rw [ihu v h]
        rfl
      · cases hu : Expr.evalAt u v with
        | none => rfl
        | some x => rw [ihw v h]; rfl
  | pow u n ihu =>
      intro v h
      simp only [containsConst] at h
      simp only [Expr.evalAt, Option.bind_eq_bind]
      rw [ihu v h]
      rfl
  | sin u ihu => intro _ _; rfl
  | cos u ihu => intro _ _; rfl
  | exp u ihu => intro _ _; rfl

/-! ### The claims -/

/-- C1: for every successfully parsed derivative input on which the
reconstruction succeeds, the Reconstructor produces exactly the pair of
the spec formulas: without a second derivative, `fprime_expr` is the
parsed `fprime` unchanged and `f_expr = integrate(fprime, x) + C1`; with
one, `fprime_expr = integrate(fdoubleprime, x) + C1` and
`f_expr = integrate(fprime_expr, x) + C2`. -/
theorem c1_reconstructor_matches_spec (fp : Expr) (fdp : Option Expr) (fe fpe : Expr)
    (h : reconstruct fp fdp = some (fe, fpe)) : C1Concl fp fdp fe fpe := by
  cases fdp with
  | none =>
      simp only [reconstruct, Option.bind_eq_bind] at h
      cases hg : integrate fp with
      | none => rw [hg] at h; simp at h
      | some g =>
          rw [hg] at h
          simp only [Option.some_bind, Option.some.injEq, Prod.mk.injEq] at h
          obtain ⟨rfl, rfl⟩ := h
          exact ⟨rfl, g, hg, rfl⟩
  | some dd =>
      simp only [reconstruct, Option.bind_eq_bind] at h
      cases hg1 : integrate dd with
      | none => rw [hg1] at h; simp at h
      | some g1 =>
          rw [hg1] at h
          simp only [Option.some_bind] at h
          cases hg2 : integrate (addE g1 .c1) with
          | none => rw [hg2] at h; simp at h
          | some g2 =>
              rw [hg2] at h
              simp only [Option.some_bind, Option.some.injEq, Prod.mk.injEq] at h
              obtain ⟨rfl, rfl⟩ := h
              exact ⟨g1, g2, hg1, rfl, hg2, rfl⟩

/-- Witness for C1 at a concrete input (second derivative `0`). -/
theorem c1_witness : C1Concl (.num 0) (some (.num 0)) (.add (.mul .c1 .var) .c2) .c1 :=
  c1_reconstructor_matches_spec (.num 0) (some (.num 0)) _ _ (by decide)

/-- C2: the condition solver solves the built equations only for the
integration constants the Reconstructor introduced (when the second
derivative is absent, no solution dictionary assigns `C2` or mentions it
in a value), the first solution set is the one substituted into the
expressions, and when no solution set exists the constants are left
unresolved with no error raised. -/
theorem c2_condition_solver_policy (fp : Expr) (fdp : Option Expr) (icfx : ℚ × ℚ)
    (icfpx : Option (ℚ × ℚ)) (cs : List Char) (x0 x1 : ℚ)
    (hrec : (reconstruct fp fdp).isSome = true) (hfp : noC2 fp = true) :
    C2Concl fp fdp icfx icfpx cs x0 x1 := by
  obtain ⟨⟨f0, fp0⟩, h⟩ := Option.isSome_iff_exists.mp hrec
  refine ⟨f0, fp0, h, ?_, ?_⟩
  · intro hnone σ hσ
    subst hnone
    simp only [reconstruct, Option.bind_eq_bind] at h
    cases hg : integrate fp with
    | none => rw [hg] at h; simp at h
    | some g =>
        rw [hg] at h
        simp only [Option.some_bind, Option.some.injEq, Prod.mk.injEq] at h
        obtain ⟨rfl, rfl⟩ := h
        have hf0 : noC2 (addE g .c1) = true :=
          noC2_addE _ _ (noC2_integrate fp g hg hfp) rfl
        exact solveConstants_introduced _ (builtEqs_noC2 _ _ _ _ hf0 hfp) σ hσ
  · refine ⟨mkOutput f0 fp0 fdp icfx icfpx cs x0 x1, by simp [pipeline, h], ?_⟩
    cases hs : solveConstants (builtEqs f0 fp0 icfx icfpx) with
    | nil =>
        left
        refine ⟨rfl, ?_, ?_⟩ <;> simp [mkOutput, finalized, hs]
    | cons σ rest =>
        right
        refine ⟨σ, rest, rfl, ?_, ?_⟩ <;> simp [mkOutput, finalized, hs]

/-- Witness for C2 at a concrete input (f' = 2x, conditions f(0)=0 and
f'(0)=5, an inconsistent system: the solver returns no solution set and
the constants stay unresolved). -/
theorem c2_witness :
    ((reconstruct (.mul (.num 2) .var) none).isSome = true) ∧
      (noC2 (.mul (.num 2) .var) = true) ∧
      C2Concl (.mul (.num 2) .var) none (0, 0) (some (0, 5)) [] (-5) 5 :=
  ⟨by decide, by decide, c2_condition_solver_policy _ _ _ _ _ _ _ (by decide) (by decide)⟩

/-- C3 counterexample: on the run f' = 2x, f(0) = 0, f'(0) = 5 the solver
finds no solution, the finalized `f_expr = x^2 + C1` still contains the
free symbol `C1`, and yet the lambdify conversion succeeds (it performs no
free-symbol check); the failure only appears when the produced callable is
invoked on a sample point.  This refutes the claim that the conversion
fails fast. -/
theorem c3_counterexample :
    ((pipeline (.mul (.num 2) .var) none (0, 0) (some (0, 5)) [] (-5) 5).map
        (fun o => o.f_expr)).toOption = some (.add (.pow .var 2) .c1) ∧
    containsConst (.add (.pow .var 2) .c1) = true ∧
    (lambdifyM (.add (.pow .var 2) .c1)).isSome = true ∧
    Expr.evalAt (.add (.pow .var 2) .c1) (-5) = none := by
  have hrec : reconstruct (.mul (.num 2) .var) none
      = some (.add (.pow .var 2) .c1, .mul (.num 2) .var) := by
    norm_num [reconstruct, integrate, mulE, addE]
  have heqs : builtEqs (.add (.pow .var 2) .c1) (.mul (.num 2) .var) (0, 0) (some (0, 5))
      = [.c1, .num (-5)] := by
    norm_num [builtEqs, substX, mulE, addE, powE]
  have hsol : solveConstants [Expr.c1, .num (-5)] = [] := by
    norm_num [solveConstants, linsOf, linOf, solve2, solve1]
  refine ⟨?_, by decide, rfl, by decide⟩
  simp only [pipeline, hrec, mkOutput, finalized, heqs, hsol, Except.map, Except.toOption]

/-- C3 amended: for every finalized expression that still contains a free
symbol other than `x`, the conversion to a numeric callable succeeds
(lambdify performs no free-symbol validation), and the produced callable
fails when invoked on any sample point. -/
theorem c3_amended_lambdify_fails_late (e : Expr) (v : ℚ) (h : containsConst e = true) :
    lambdifyM e = some (fun t => Expr.evalAt e t) ∧ Expr.evalAt e v = none :=
  ⟨rfl, evalAt_none_of_containsConst e v h⟩

/-- Witness for the amended C3 at the expression `x^2 + C1`. -/
theorem c3_amended_witness :
    containsConst (Expr.add (.pow .var 2) .c1) = true ∧
      (lambdifyM (Expr.add (.pow .var 2) .c1)
          = some (fun t => Expr.evalAt (Expr.add (.pow .var 2) .c1) t) ∧
        Expr.evalAt (Expr.add (.pow .var 2) .c1) 0 = none) :=
  ⟨by decide, c3_amended_lambdify_fails_late _ 0 (by decide)⟩

/-- C4: constant substitution is atomic: either the head solution
dictionary is substituted into both `f_expr` and `fprime_expr`, or both
are left exactly as reconstructed; no run substitutes into only one. -/
theorem c4_substitution_atomic (fp : Expr) (fdp : Option Expr) (icfx : ℚ × ℚ)
    (icfpx : Option (ℚ × ℚ)) (cs : List Char) (x0 x1 : ℚ)
    (hrec : (reconstruct fp fdp).isSome = true) :
    C4Concl fp fdp icfx icfpx cs x0 x1 := by
  obtain ⟨⟨f0, fp0⟩, h⟩ := Option.isSome_iff_exists.mp hrec
  refine ⟨f0, fp0, h, ?_⟩
  cases hs : solveConstants (builtEqs f0 fp0 icfx icfpx) with
  | nil =>
      right
      refine ⟨rfl, ?_⟩
      simp [pipeline, h, mkOutput, finalized, hs, Except.map]
  | cons σ rest =>
      left
      refine ⟨σ, rest, rfl, ?_⟩
      simp [pipeline, h, mkOutput, finalized, hs, Except.map]

/-- Witness for C4 at a concrete input (f' = 2x, f(0) = 0). -/
theorem c4_witness :
    ((reconstruct (.mul (.num 2) .var) none).isSome = true) ∧
      C4Concl (.mul (.num 2) .var) none (0, 0) none [] (-5) 5 :=
  ⟨by decide, c4_substitution_atomic _ _ _ _ _ _ _ (by decide)⟩

/-- C5: for every parsed f'(x) input of the grammar with no second
derivative, the reconstruction succeeds and differentiating the
reconstructed `f_expr` symbolically yields exactly `fprime_expr`, which is
the parsed input unchanged (the constant `C1` vanishes under
differentiation). -/
theorem c5_diff_left_inverse (d : List Term) :
    ∃ fe fpe, reconstruct (inputExpr d) none = some (fe, fpe) ∧
      diff fe = fpe ∧ fpe = inputExpr d := by
  obtain ⟨g, hint, hdiff⟩ := integrate_diff_input d
  refine ⟨addE g .c1, inputExpr d, ?_, ?_, rfl⟩
  · simp only [reconstruct, Option.bind_eq_bind]
    rw [hint]
    rfl
  · have hc1 : diff Expr.c1 = Expr.num 0 := rfl
    have hstep : diff (addE g .c1) = addE (diff g) (.num 0) := by
      rw [diff_addE, hc1]
    rw [hstep, addE_num_zero_right, hdiff]

/-- C6: for the input f''(x) = 0 with initial conditions f(0) = 1 and
f'(0) = 2, the pipeline resolves both integration constants and produces
the finalized reconstruction f(x) = 2x + 1 with fprime_expr finalized
to 2. -/
theorem c6_linear_reconstruction_example :
    ((pipeline (.mul (.num 2) .var) (some (.num 0)) (0, 1) (some (0, 2)) [] (-5) 5).map
        (fun o => (o.f_expr, o.fprime_expr))).toOption
      = some (.add (.mul (.num 2) .var) (.num 1), .num 2) := by
  have hrec : reconstruct (.mul (.num 2) .var) (some (.num 0))
      = some (.add (.mul .c1 .var) .c2, .c1) := by
    norm_num [reconstruct, integrate, mulE, addE]
  have heqs : builtEqs (.add (.mul .c1 .var) .c2) .c1 (0, 1) (some (0, 2))
      = [.add .c2 (.num (-1)), .add .c1 (.num (-2))] := by
    norm_num [builtEqs, substX, mulE, addE]
  have hsol : solveConstants [.add .c2 (.num (-1)), .add .c1 (.num (-2))]
      = [⟨some (.num 2), some (.num 1)⟩] := by
    norm_num [solveConstants, linsOf, linOf, solve2, solve1, mulE, addE]
  simp only [pipeline, hrec, mkOutput, finalized, heqs, hsol, Except.map, Except.toOption]
  norm_num [substC, mulE, addE]

/-- C7: for every pair of bounds with xmin < xmax, the sample grid is an
ordered sequence of exactly 1000 evenly spaced points whose first element
is xmin and whose last element is xmax. -/
theorem c7_sample_grid (a b : ℚ) (hab : a < b) : C7Concl a b := by
  have hget : ∀ i, i < 1000 → (linspace a b 1000).get? i
      = some (a + (b - a) * (i : ℚ) / 999) := by
    intro i hi
    rw [linspace, List.get?_map, List.get?_range hi]
    norm_num
  have hba : (0 : ℚ) < b - a := sub_pos.mpr hab
  refine ⟨by simp [linspace], ?_, ?_, ?_⟩
  · rw [hget 0 (by norm_num)]
    norm_num
  · rw [hget 999 (by norm_num)]
    have hb999 : a + (b - a) * ((999 : ℕ) : ℚ) / 999 = b := by
      push_cast
      field_simp
    rw [hb999]
  · intro i hi
    refine ⟨a + (b - a) * (i : ℚ) / 999, a + (b - a) * ((i + 1 : ℕ) : ℚ) / 999,
      hget i (by omega), hget (i + 1) hi, ?_, ?_⟩
    · push_cast
      ring
    · have hi1 : ((i : ℚ)) < ((i + 1 : ℕ) : ℚ) := by
        push_cast
        linarith
      have hkey : (b - a) * (i : ℚ) / 999 < (b - a) * ((i + 1 : ℕ) : ℚ) / 999 := by
        rw [div_lt_div_iff_of_pos_right (show (0 : ℚ) < 999 by norm_num)]
        exact mul_lt_mul_of_pos_left hi1 hba
      linarith

/-- Witness for C7 at the default plot range. -/
theorem c7_witness : ((-5 : ℚ) < 5) ∧ C7Concl (-5) 5 :=
  ⟨by norm_num, c7_sample_grid (-5) 5 (by norm_num)⟩

set_option maxRecDepth 8000 in
/-- C8: for every non-blank critical-point text that fails to parse, the
pipeline emits the non-fatal warning, uses an empty critical-point set,
and otherwise behaves exactly as the run with no critical-point text (it
does not halt, and all expressions and output arrays are unchanged). -/
theorem c8_critical_parse_nonfatal (fp : Expr) (fdp : Option Expr) (icfx : ℚ × ℚ)
    (icfpx : Option (ℚ × ℚ)) (cs : List Char) (x0 x1 : ℚ)
    (h1 : isBlank cs = false) (h2 : parseFloatList cs = none) :
    C8Concl fp fdp icfx icfpx cs x0 x1 := by
  have hcrit : criticalResult cs = ([], [.criticalParse]) := by
    simp [criticalResult, h1, h2]
  constructor
  · cases h : reconstruct fp fdp with
    | none => simp [pipeline, h, Except.map]
    | some fe =>
        simp only [pipeline, h, Except.map]
        congr 1
        simp only [mkOutput, hcrit]
        rfl
  · intro out hout
    cases h : reconstruct fp fdp with
    | none => simp [pipeline, h] at hout
    | some fe =>
        simp only [pipeline, h, Except.ok.injEq] at hout
        subst hout
        constructor
        · show (criticalResult cs).1 = []
          rw [hcrit]
        · show (criticalResult cs).2 = [.criticalParse]
          rw [hcrit]

/-- Witness for C8 at the unparsable text "abc". -/
theorem c8_witness :
    isBlank ['a', 'b', 'c'] = false ∧ parseFloatList ['a', 'b', 'c'] = none ∧
      C8Concl (.mul (.num 2) .var) none (0, 0) none ['a', 'b', 'c'] (-5) 5 :=
  ⟨by decide, by decide, c8_critical_parse_nonfatal _ _ _ _ _ _ _ (by decide) (by decide)⟩

/-- C9: with a second derivative supplied, the reported inflection points
are exactly the real-filtered float conversions of the roots the symbolic
solver finds for fdoubleprime = 0; any solver failure silently yields the
empty set (never a partial or symbolic one) and the pipeline still
produces its output. -/
theorem c9_inflection_best_effort (fp fdp : Expr) (icfx : ℚ × ℚ)
    (icfpx : Option (ℚ × ℚ)) (cs : List Char) (x0 x1 : ℚ)
    (hrec : (reconstruct fp (some fdp)).isSome = true) :
    C9Concl fp fdp icfx icfpx cs x0 x1 := by
  obtain ⟨⟨f0, fp0⟩, h⟩ := Option.isSome_iff_exists.mp hrec
  refine ⟨mkOutput f0 fp0 (some fdp) icfx icfpx cs x0 x1, by simp [pipeline, h], rfl, ?_⟩
  intro hnone
  show inflectionOf (some fdp) = []
  simp [inflectionOf, hnone]

/-- Witness for C9 at f'' = exp x, a second derivative on which the
equation exp x = 0 yields no roots the model can report (the solver model
abstains), so the inflection-point list is empty while the pipeline still
succeeds. -/
theorem c9_witness :
    (reconstruct (.num 0) (some (.exp .var))).isSome = true ∧
      C9Concl (.num 0) (.exp .var) (0, 0) none [] (-5) 5 :=
  ⟨by decide, c9_inflection_best_effort _ _ _ _ _ _ _ (by decide)⟩

/-- C10: when a non-blank second derivative is supplied, the whole
pipeline result is independent of the parsed f'(x) input: the parsed
fprime is never used on that path and no consistency check between f' and
f'' is performed. -/
theorem c10_fprime_ignored_when_fpp_present (fp1 fp2 fdp : Expr) (icfx : ℚ × ℚ)
    (icfpx : Option (ℚ × ℚ)) (cs : List Char) (x0 x1 : ℚ) :
    pipeline fp1 (some fdp) icfx icfpx cs x0 x1
      = pipeline fp2 (some fdp) icfx icfpx cs x0 x1 := rfl

end CalcSketch
